import Mathlib

/-
A shallow embedding of the Rosetta Code scraper's wikitext extraction
engine (src/rosettacode.py, with src/read.py an older copy of the same
classes) and of the CLI export layer (src/rccli.py).

Strings are modelled as lists of characters (`Str`), and each of the
compiled regular expressions of the source is embedded as an executable
matching function whose behaviour at every input agrees with the Python
pattern's (all the patterns involved are deterministic once the greedy /
lazy quantifier semantics is spelled out, as noted at each definition).
Brace characters inside Lean string literals are written with the \x7b and
\x7d escapes throughout.
-/

namespace Rosetta

/-- A Python string, modelled as its list of characters. -/
abbrev Str := List Char

/-- Match the literal `l` at the head of `s`: `some rest` on success. -/
def dropLit : Str → Str → Option Str
  | [], s => some s
  | _ :: _, [] => none
  | c :: l, d :: s => if c = d then dropLit l s else none

/-- Lazy scan: the shortest prefix of `s` after which the literal `l`
matches, returning (that prefix, the suffix after the literal).  This is
the semantics of a lazy group followed by a literal, as in the chunk
pattern's fragment matching everything up to the closing fence. -/
def findLit (l : Str) : Str → Option (Str × Str)
  | [] =>
    match dropLit l [] with
    | some rest => some ([], rest)
    | none => none
  | c :: s =>
    match dropLit l (c :: s) with
    | some rest => some ([], rest)
    | none => (findLit l (c :: s).tail).map (fun p => (c :: p.1, p.2))

/-- Lazy scan with an arbitrary continuation `k`: the shortest prefix of
`s` at whose end `k` succeeds.  This is the semantics of a lazy group
followed by the rest of a pattern. -/
def findLazy (k : Str → Option α) : Str → Option (Str × α)
  | [] => (k []).map (fun a => ([], a))
  | c :: s =>
    match k (c :: s) with
    | some a => some ([], a)
    | none => (findLazy k s).map (fun p => (c :: p.1, p.2))

/-- Python `\s` on the ASCII plane: space, tab, newline, return, formfeed,
vertical tab. -/
def isPySpace (c : Char) : Bool :=
  c = ' ' || c = '\t' || c = '\n' || c = '\x0d' || c = '\x0b' || c = '\x0c'

/-- Python `text.split(sep)` for a one-character separator: never empty,
the empty string splits to `[""]`. -/
def splitOnChar (sep : Char) : Str → List Str
  | [] => [[]]
  | c :: rest =>
    match splitOnChar sep rest with
    | [] => [[]]
    | h :: t => if c = sep then [] :: h :: t else (c :: h) :: t

/-- Python `text.split('=', 1)`: the part before the first `=` and, when
one occurs, the part after it. -/
def splitEq1 (s : Str) : Str × Option Str :=
  match findLit ['='] s with
  | some (pre, post) => (pre, some post)
  | none => (s, none)

/-! ## The data model (classes CodeBlock and Language of src/rosettacode.py) -/

/-- The `works_with` dict built by `Language.blocks`: `wikiname` is always
assigned from the first pipe-delimited token; `version` and `display` stay
`None` unless the token count is exactly 2 or 3. -/
structure WorksWith where
  wikiname : Str
  display : Option Str
  version : Option Str
deriving Repr, DecidableEq

/-- The `out` dict built by `Language.blocks`: `label` and `output` are
always assigned after the parameter loop; the four optional fields are only
assigned by a matching `key=value` token. -/
structure OutAnn where
  label : Str
  output : Str
  case_ : Option Str
  input : Option Str
  note : Option Str
  text : Option Str
deriving Repr, DecidableEq

/-- Class `CodeBlock`.  Field `syn` models the Python attribute named
`syntax` (`self.syntax = syntax or None`: the empty string becomes `none`);
`output` and `workswith` start as `None` and may be attached during the
same scan of the section. -/
structure CodeBlock where
  syn : Option Str
  code : Str
  output : Option OutAnn
  workswith : Option WorksWith
deriving Repr, DecidableEq

/-! ## chunk_re and the three per-chunk patterns

`chunk_re = (\{\{out[^}]*}}\s*<pre>.*?</pre>|\{\{[^}]*}}|<lang.*?</lang>)`
compiled with DOTALL, used through `findall`.  At a given start position the
three alternatives are tried left to right; each alternative is
deterministic: `[^}]*` can never release a character usefully before `}}`
(a shorter munch would put a non-brace character where `}` is required),
`\s*` likewise before `<pre>`, and the lazy `.*?` groups stop at the first
occurrence of the closing literal.  Each matcher returns the remaining
suffix on success. -/

/-- Alternative 1, an output marker glued to a preformatted sample:
`\{\{out[^}]*}}\s*<pre>.*?</pre>`. -/
def matchOutPre (s : Str) : Option Str := do
  let s ← dropLit "\x7b\x7bout".data s
  let s := s.dropWhile (fun c => c ≠ '\x7d')
  let s ← dropLit "\x7d\x7d".data s
  let s := s.dropWhile isPySpace
  let s ← dropLit "<pre>".data s
  let (_, s) ← findLit "</pre>".data s
  pure s

/-- Alternative 2, any other template marker: `\{\{[^}]*}}`. -/
def matchTmpl (s : Str) : Option Str := do
  let s ← dropLit "\x7b\x7b".data s
  let s := s.dropWhile (fun c => c ≠ '\x7d')
  dropLit "\x7d\x7d".data s

/-- Alternative 3, a fenced code region: `<lang.*?</lang>`. -/
def matchLangTag (s : Str) : Option Str := do
  let s ← dropLit "<lang".data s
  let (_, s) ← findLit "</lang>".data s
  pure s

/-- One attempt of `chunk_re` at the current position: the alternatives in
the pattern's order. -/
def chunkHere (s : Str) : Option Str :=
  (matchOutPre s).orElse fun _ => (matchTmpl s).orElse fun _ => matchLangTag s

/-- `chunk_re.findall`, fuelled so that it is structurally recursive: scan
left to right, emit each match (the pattern's single group is the whole
match) and continue after it; on no match advance one character.  Every
alternative consumes at least two characters, so `length + 1` steps always
suffice. -/
def chunkFindAllFuel : Nat → Str → List Str
  | 0, _ => []
  | Nat.succ fuel, s =>
    match s, chunkHere s with
    | [], _ => []
    | _, some rest => s.take (s.length - rest.length) :: chunkFindAllFuel fuel rest
    | _ :: tail, none => chunkFindAllFuel fuel tail

/-- `Language.chunk_re.findall(md)`. -/
def findall (s : Str) : List Str := chunkFindAllFuel (s.length + 1) s

/-! ## The three `search` calls of the per-chunk loop -/

/-- `workswith_re = \{\{works with\|([^}]*)}}` matched at one position,
returning group 1. -/
def wwHere (s : Str) : Option Str := do
  let s ← dropLit "\x7b\x7bworks with|".data s
  let g := s.takeWhile (fun c => c ≠ '\x7d')
  let _ ← dropLit "\x7d\x7d".data (s.dropWhile (fun c => c ≠ '\x7d'))
  pure g

/-- `workswith_re.search(string)`: the leftmost position at which the
pattern matches. -/
def searchWW : Str → Option Str
  | [] => wwHere []
  | c :: s =>
    match wwHere (c :: s) with
    | some g => some g
    | none => searchWW s

/-- `out_re = \{\{out\|?([^}]*)}}\s*<pre>(.*?)</pre>` matched at one
position, returning groups 1 and 2.  The optional `\|?` is greedy; taking
the pipe when present never changes whether the whole pattern matches, only
what group 1 holds, so it is consumed whenever present. -/
def outHere (s : Str) : Option (Str × Str) := do
  let s ← dropLit "\x7b\x7bout".data s
  let s := match s with
    | '|' :: t => t
    | t => t
  let g1 := s.takeWhile (fun c => c ≠ '\x7d')
  let s ← dropLit "\x7d\x7d".data (s.dropWhile (fun c => c ≠ '\x7d'))
  let s := s.dropWhile isPySpace
  let s ← dropLit "<pre>".data s
  let (g2, _) ← findLit "</pre>".data s
  pure (g1, g2)

/-- `out_re.search(string)`. -/
def searchOut : Str → Option (Str × Str)
  | [] => outHere []
  | c :: s =>
    match outHere (c :: s) with
    | some g => some g
    | none => searchOut s

/-- `block_re = <lang ?([^>]*)>(.*?)</lang>` matched at one position,
returning groups 1 and 2.  The optional space is greedy and consuming it
never changes whether the pattern matches. -/
def blockHere (s : Str) : Option (Str × Str) := do
  let s ← dropLit "<lang".data s
  let s := match s with
    | ' ' :: t => t
    | t => t
  let g1 := s.takeWhile (fun c => c ≠ '>')
  let s ← dropLit ">".data (s.dropWhile (fun c => c ≠ '>'))
  let (g2, _) ← findLit "</lang>".data s
  pure (g1, g2)

/-- `block_re.search(string)`. -/
def searchBlock : Str → Option (Str × Str)
  | [] => blockHere []
  | c :: s =>
    match blockHere (c :: s) with
    | some g => some g
    | none => searchBlock s

/-! ## Parsing the two annotations (lines 146-190 of src/rosettacode.py) -/

/-- Lines 148-159: split the works-with group on `|`; `wikiname` is token 0,
and `version` / `display` are set only for exactly two or exactly three
tokens. -/
def parseWorksWith (g : Str) : WorksWith :=
  let parts := splitOnChar '|' g
  { wikiname := parts.headD []
    display := if parts.length = 3 then parts.get? 1 else none
    version :=
      if parts.length = 2 then parts.get? 1
      else if parts.length = 3 then parts.get? 2 else none }

/-- One iteration of the parameter loop (lines 174-179): a `key=value`
token with a known key sets that field, any other token overwrites the
label with its part before the first `=`. -/
def outStep (acc : OutAnn) (tok : Str) : OutAnn :=
  match splitEq1 tok with
  | (k, some v) =>
    if k = "case".data then { acc with case_ := some v }
    else if k = "input".data then { acc with input := some v }
    else if k = "note".data then { acc with note := some v }
    else if k = "text".data then { acc with text := some v }
    else { acc with label := k }
  | (k, none) => { acc with label := k }

/-- Lines 164-181: the label starts as `"Output"`, the parameter list
(splitting the group on `|`, never empty - the empty group gives one empty
token) is folded over it, and the captured sample becomes `output`.  The
loop never touches `output`, so assigning it up front is equivalent to the
source's assignment after the loop. -/
def parseOut (g1 g2 : Str) : OutAnn :=
  (splitOnChar '|' g1).foldl outStep
    { label := "Output".data, output := g2
      case_ := none, input := none, note := none, text := none }

/-! ## The per-section scan (property `Language.blocks`, lines 135-203)

The loop keeps a pending works-with value and the current block.  The
current Python variable `code` is always the most recently appended block
(every created block is appended at once and the variable is never reset),
so the state is modelled as the reversed list of blocks built so far, the
head playing the role of `code`; attaching an output mutates that head. -/

/-- The body of the `for string in matches` loop, over the remaining
chunks. -/
def blocksLoop : List Str → Option WorksWith → List CodeBlock → List CodeBlock
  | [], _, rblocks => rblocks.reverse
  | s :: rest, ww, rblocks =>
    match searchWW s with
    | some g => blocksLoop rest (some (parseWorksWith g)) rblocks
    | none =>
      match searchOut s with
      | some (g1, g2) =>
        match rblocks with
        | [] => blocksLoop rest ww []
        | b :: bs => blocksLoop rest ww ({ b with output := some (parseOut g1 g2) } :: bs)
      | none =>
        match searchBlock s with
        | some (g1, g2) =>
          blocksLoop rest ww
            ({ syn := if g1 = [] then none else some g1
               code := g2, output := none, workswith := ww } :: rblocks)
        | none => blocksLoop rest ww rblocks

/-- `Language.blocks` as a function of the section markup: chunk scan, then
the association loop starting with no pending works-with value and no
current block. -/
def blocksOf (md : Str) : List CodeBlock := blocksLoop (findall md) none []

/-! ## Language heading detection (class Task, lines 206-314)

`language_re  = \n==\{\{header\|(.*?)\}\}== *\n(.*?)(?=\n==\{|$)`
`language2_re = \n==\{\{header\|([^}]*?)\}\} and \{\{header\|([^}]*?)\}\}== *\n(.*?)(?=\n==\{|$)`
both compiled with DOTALL (no MULTILINE), used through `findall`.  In a
pattern without MULTILINE, `$` matches at the end of the text and also just
before a newline that ends the text. -/

/-- The closing of a single-language heading: `\}\}== *\n` with a run of
literal spaces. -/
def hdrClose (s : Str) : Option Str := do
  let s ← dropLit "\x7d\x7d==".data s
  dropLit "\n".data (s.dropWhile (fun c => c = ' '))

/-- The body-ending lookahead `(?=\n==\{|$)`: a new heading line starts
here, or the position is at the end of the text, or just before a final
newline. -/
def secEnd (s : Str) : Bool :=
  decide (s = []) || decide (s = ['\n']) || (dropLit "\n==\x7b".data s).isSome

/-- `language_re` matched at one position: `((name, body), suffix at the
match's end)`.  The lazy name group takes the first position at which
`hdrClose` succeeds; the lazy body group takes the first position at which
the lookahead holds, which always exists (the end of the text), so no
backtracking into the name group ever happens. -/
def lang1Here (s : Str) : Option ((Str × Str) × Str) := do
  let s ← dropLit "\n==\x7b\x7bheader|".data s
  let (g1, s) ← findLazy hdrClose s
  let (g2, s) ← findLazy (fun t => if secEnd t then some t else none) s
  pure ((g1, g2), s)

/-- `language2_re` matched at one position: `((name1, name2, body), suffix)`.
The lazy `[^}]*?` groups cannot cross a brace, so each is exactly the run
of non-brace characters before the following literal. -/
def lang2Here (s : Str) : Option ((Str × Str × Str) × Str) := do
  let s ← dropLit "\n==\x7b\x7bheader|".data s
  let g1 := s.takeWhile (fun c => c ≠ '\x7d')
  let s ← dropLit "\x7d\x7d and \x7b\x7bheader|".data (s.dropWhile (fun c => c ≠ '\x7d'))
  let g2 := s.takeWhile (fun c => c ≠ '\x7d')
  let s ← dropLit "\x7d\x7d==".data (s.dropWhile (fun c => c ≠ '\x7d'))
  let s ← dropLit "\n".data (s.dropWhile (fun c => c = ' '))
  let (g3, s) ← findLazy (fun t => if secEnd t then some t else none) s
  pure ((g1, g2, g3), s)

/-- Fuelled `findall` for `language_re`: every match consumes at least the
heading literal, so `length + 1` steps suffice. -/
def lang1FindAllFuel : Nat → Str → List (Str × Str)
  | 0, _ => []
  | Nat.succ fuel, s =>
    match s, lang1Here s with
    | [], _ => []
    | _, some (gs, rest) => gs :: lang1FindAllFuel fuel rest
    | _ :: tail, none => lang1FindAllFuel fuel tail

/-- `Task.language_re.findall(edit)`. -/
def lang1FindAll (s : Str) : List (Str × Str) := lang1FindAllFuel (s.length + 1) s

/-- Fuelled `findall` for `language2_re`. -/
def lang2FindAllFuel : Nat → Str → List (Str × Str × Str)
  | 0, _ => []
  | Nat.succ fuel, s =>
    match s, lang2Here s with
    | [], _ => []
    | _, some (gs, rest) => gs :: lang2FindAllFuel fuel rest
    | _ :: tail, none => lang2FindAllFuel fuel tail

/-- `Task.language2_re.findall(edit)`. -/
def lang2FindAll (s : Str) : List (Str × Str × Str) := lang2FindAllFuel (s.length + 1) s

/-- Class `Language` as data: the canonicalized name and the section
markup. -/
structure Language where
  name : Str
  md : Str
deriving Repr, DecidableEq

/-- `Language.__init__` (lines 113-121): a name holding a pipe is replaced
by the token after the first pipe (`parts[1]`), e.g. `F_Sharp|F#` becomes
`F#`. -/
def mkLanguage (name md : Str) : Language :=
  let name :=
    if name.contains '|' then ((splitOnChar '|' name).get? 1).getD [] else name
  ⟨name, md⟩

/-- The languages computed by the `Task.languages` property (lines
296-314): the single-heading matches, then the paired-heading matches
keeping only the first name, then the active filter. -/
def computeLanguages (edit : Str) (filter : Language → Bool) : List Language :=
  (((lang1FindAll edit).map fun p => mkLanguage p.1 p.2)
    ++ ((lang2FindAll edit).map fun p => mkLanguage p.1 p.2.2)).filter filter

/-- `Task.languages` with the constructor's default filter, which accepts
everything. -/
def languagesOf (edit : Str) : List Language :=
  computeLanguages edit fun _ => true

/-! ## The lazy caches of Language, Task and Category

Each Python object is modelled as a record of its mutable fields, and each
property as a function returning its value together with the updated
object.  The getters that may hit the network also return whether a fetch
happened (`cache_page` is reached only through the `page` property).
External collaborators - the HTTP fetch and the HTML edit-box extraction -
are an environment of opaque functions. -/

/-- A `Language` object: `name`, `md`, and the `_blocks` / `_blockmatches`
caches, `None` until the `blocks` property first runs. -/
structure LangState where
  name : Str
  md : Str
  blocksCache : Option (List CodeBlock)
  blockmatchesCache : Option (List Str)
deriving Repr, DecidableEq

/-- The `Language.blocks` property: return the cache when it is set (`if
self._blocks is not None`), else scan the markup and fill both caches. -/
def blocksGet (l : LangState) : List CodeBlock × LangState :=
  match l.blocksCache with
  | some bs => (bs, l)
  | none =>
    let bs := blocksOf l.md
    (bs, { l with blocksCache := some bs, blockmatchesCache := some (findall l.md) })

/-- The external collaborators: `fetch` models `cache_page` (the network /
cache adapter, keyed here by the task's wikiname) and `extractEdit` models
the BeautifulSoup + HTMLParser extraction of the edit box from the fetched
page. -/
structure Env where
  fetch : Str → Str
  extractEdit : Str → Str

/-- A Python falsy cache slot: `None` or the empty string (the source
guards its two text caches with `if not self._page` / `if not self._edit`,
which misses on both). -/
def optFalsy : Option Str → Bool
  | none => true
  | some s => decide (s = [])

/-- A `Task` object: identifier and the five mutable fields. -/
structure TaskState where
  wikiname : Str
  page : Option Str
  edit : Option Str
  langs : Option (List Language)
  byname : Option (List (Str × Language))
  filter : Language → Bool

/-- `Task.__init__`: every cache empty and a filter accepting everything. -/
def newTask (w : Str) : TaskState :=
  { wikiname := w, page := none, edit := none, langs := none, byname := none
    filter := fun _ => true }

/-- The `Task.page` property: fetch and store the page when the cache is
falsy.  The third component records whether the fetch adapter ran. -/
def pageGet (env : Env) (t : TaskState) : Str × TaskState × Bool :=
  if optFalsy t.page then
    let p := env.fetch t.wikiname
    (p, { t with page := some p }, true)
  else (t.page.getD [], t, false)

/-- The `Task.edit` property: extract the edit-box text from the page when
the cache is falsy. -/
def editGet (env : Env) (t : TaskState) : Str × TaskState × Bool :=
  if optFalsy t.edit then
    let (p, t1, fetched) := pageGet env t
    let e := env.extractEdit p
    (e, { t1 with edit := some e }, fetched)
  else (t.edit.getD [], t, false)

/-- The `_byname` mapping as built on line 313: one `(name, language)` pair
per language, in order; a later pair with the same name shadows an earlier
one on lookup, as in a Python dict built by successive insertion. -/
def bynameOf (ls : List Language) : List (Str × Language) :=
  ls.map fun l => (l.name, l)

/-- `dict.get`-style lookup in the `_byname` mapping: the pair inserted
last wins. -/
def lookupLast (d : List (Str × Language)) (k : Str) : Option Language :=
  (d.reverse.find? fun p => p.1 == k).map Prod.snd

/-- The `Task.languages` property (lines 296-314): return the `_languages`
cache when set, else recompute both `_languages` and `_byname` from the
edit text and the active filter. -/
def languagesGet (env : Env) (t : TaskState) : List Language × TaskState × Bool :=
  match t.langs with
  | some ls => (ls, t, false)
  | none =>
    let (e, t1, fetched) := editGet env t
    let ls := computeLanguages e t.filter
    (ls, { t1 with langs := some ls, byname := some (bynameOf ls) }, fetched)

/-- The `Task.dict` property: force `languages` when `_languages is None`,
then return `_byname`. -/
def dictGet (env : Env) (t : TaskState) : List (Str × Language) × TaskState × Bool :=
  match t.langs with
  | some _ => (t.byname.getD [], t, false)
  | none =>
    let (_, t1, fetched) := languagesGet env t
    (t1.byname.getD [], t1, fetched)

/-- The `language_filter` setter (lines 280-283): store the new predicate
and clear the `_languages` cache. -/
def setLanguageFilter (t : TaskState) (f : Language → Bool) : TaskState :=
  { t with filter := f, langs := none }

/-- A Python value used as a lookup key: a `str`, or any non-string value
(abstracted to a tag, since `isinstance(index, str)` is all the source
inspects before raising). -/
inductive PyIndex where
  | pystr (s : Str)
  | other (tag : Nat)

/-- The message of the `KeyError` raised for a non-string key. -/
def keyErrMsg : Str := "Key for Task languages must be a string".data

/-- `Task.__getitem__` (lines 322-325): a non-string key raises before any
attribute is touched; a string key is looked up in `dict`, raising a
`KeyError` naming the key when absent. -/
def task_getitem (env : Env) (t : TaskState) (i : PyIndex) :
    Except Str Language × TaskState :=
  match i with
  | .other _ => (.error keyErrMsg, t)
  | .pystr s =>
    let (d, t1, _) := dictGet env t
    match lookupLast d s with
    | some l => (.ok l, t1)
    | none => (.error s, t1)

/-- `Task.get` (lines 327-330): a non-string key raises the same
`KeyError`; a string key falls back to the supplied default. -/
def task_get (env : Env) (t : TaskState) (i : PyIndex) (default : Option Language) :
    Except Str (Option Language) × TaskState :=
  match i with
  | .other _ => (.error keyErrMsg, t)
  | .pystr s =>
    let (d, t1, _) := dictGet env t
    (.ok ((lookupLast d s).elim default some), t1)

/-- A `Category` object: identifier and the mutable fields, with the task
filter a predicate over `Task` objects. -/
structure CategoryState where
  category : Str
  page : Option Str
  links : Option (List (Str × Str))
  tasks : Option (List TaskState)
  filter : TaskState → Bool

/-- The external HTML scan of `Category.links` (lines 380-399), an outer
collaborator like the edit-box extraction: it returns the `(title,
identifier)` pairs scraped from the listing page, or `None` when no
heading matched. -/
structure CatEnv extends Env where
  parseLinks : Str → Option (List (Str × Str))

/-- The `Category.page` property. -/
def catPageGet (env : CatEnv) (c : CategoryState) : Str × CategoryState × Bool :=
  if optFalsy c.page then
    let p := env.fetch c.category
    (p, { c with page := some p }, true)
  else (c.page.getD [], c, false)

/-- The `Category.links` property: return the cache when set (`if
self._links is not None`), else scan the fetched page. -/
def linksGet (env : CatEnv) (c : CategoryState) :
    Option (List (Str × Str)) × CategoryState × Bool :=
  match c.links with
  | some l => (some l, c, false)
  | none =>
    let (p, c1, fetched) := catPageGet env c
    let l := env.parseLinks p
    (l, { c1 with links := l }, fetched)

/-- The `Category.tasks` property (lines 410-418): when the cache is
`None`, construct one fresh `Task` per link identifier and keep those the
active filter accepts. -/
def tasksGet (env : CatEnv) (c : CategoryState) :
    List TaskState × CategoryState × Bool :=
  match c.tasks with
  | some ts => (ts, c, false)
  | none =>
    let (l, c1, fetched) := linksGet env c
    let ts := ((l.getD []).map fun p => newTask p.2).filter c.filter
    (ts, { c1 with tasks := some ts }, fetched)

/-- The `task_filter` setter (lines 405-408): store the new predicate and
clear the `_tasks` cache. -/
def setTaskFilter (c : CategoryState) (f : TaskState → Bool) : CategoryState :=
  { c with filter := f, tasks := none }

/-! ## The CLI layer (src/rccli.py) -/

/-- Python `str.splitlines` restricted to newline-terminated lines: split
on `\n`, a trailing newline adding no empty final line (`"a\nb\n"` gives
`["a", "b"]`, `""` gives `[]`). -/
def splitlines (s : Str) : List Str :=
  if s = [] then []
  else
    let parts := splitOnChar '\n' s
    if parts.getLast? = some [] then parts.dropLast else parts

/-- `rccli.comment` (lines 70-81): C-family languages get a block comment
wrapped around the text, every other language gets each line prefixed with
`# `. -/
def comment (language : Str) (block : Str) : Str :=
  if language = "C".data ∨ language = "C++".data then
    "/*".data ++ block ++ "\n*/\n".data
  else
    ((splitlines block).map fun line => "# ".data ++ line ++ ['\n']).flatten

/-- The options of `write_tasks_dir`: the target directory, the layout
string (`'riscos'` selects the extension-directory layout, anything else
the unix one) and the two comment-prefix switches. -/
structure WriteOpts where
  code_dir : Str
  layout : Str
  include_task : Bool
  include_intro : Bool

/-- What `write_tasks_dir` reads from one task: its `fsname`, the `intro`
and `task` text properties, and `task.values()`, which is the ordered
language list, each language contributing its name and its blocks. -/
structure TaskView where
  fsname : Str
  intro : Str
  task : Str
  languages : List (Str × List CodeBlock)

/-- `os.path.join` for the two-component paths the export builds (an empty
first component adds no separator). -/
def joinPath (a b : Str) : Str :=
  if a = [] then b else a ++ '/' :: b

/-- Line 97: `lang.name.lower().replace('/', '.')`. -/
def extensionOf (lname : Str) : Str :=
  lname.map fun c => if c.toLower = '/' then '.' else c.toLower

/-- The decimal rendering of a number, as Python's `%s` formats an int. -/
def natStr (n : Nat) : Str := (Nat.repr n).data

/-- Lines 100-104: `<fsname>__<index+1>` when the language has more than
one block, plain `<fsname>` otherwise. -/
def variantName (fsname : Str) (nblocks index : Nat) : Str :=
  if nblocks > 1 then fsname ++ "__".data ++ natStr (index + 1) else fsname

/-- Lines 105-108: the on-disk path for one block's file. -/
def filenameFor (opts : WriteOpts) (extension name : Str) : Str :=
  if opts.layout = "riscos".data then joinPath (joinPath opts.code_dir extension) name
  else joinPath opts.code_dir (name ++ '.' :: extension)

/-- Lines 116-123: the bytes written to one file - the optional intro and
task comments, the block's code verbatim, and one final newline. -/
def bodyFor (opts : WriteOpts) (tv : TaskView) (lname code : Str) : Str :=
  (if opts.include_intro && !decide (tv.intro = []) then
    comment lname ('\n' :: tv.intro) ++ ['\n'] else [])
  ++ (if opts.include_task && !decide (tv.task = []) then
    comment lname ("TASK:\n".data ++ tv.task) ++ ['\n'] else [])
  ++ code ++ ['\n']

/-- The `for index, code in enumerate(lang.blocks)` loop: one
`(filename, contents)` pair per block, `index` counting from `i`. -/
def filesOfBlocks (opts : WriteOpts) (tv : TaskView) (lname : Str) (nblocks : Nat) :
    Nat → List CodeBlock → List (Str × Str)
  | _, [] => []
  | i, b :: bs =>
    (filenameFor opts (extensionOf lname) (variantName tv.fsname nblocks i),
      bodyFor opts tv lname b.code) :: filesOfBlocks opts tv lname nblocks (i + 1) bs

/-- `write_tasks_dir` (lines 84-123) as the ordered list of files it
writes: one per task, language and block. -/
def write_tasks_dir (opts : WriteOpts) (tasks : List TaskView) : List (Str × Str) :=
  tasks.flatMap fun tv =>
    tv.languages.flatMap fun lg =>
      filesOfBlocks opts tv lg.1 lg.2.length 0 lg.2

/-- Lexicographic order on Python strings (`<=` over code points), the
order the spec names for language listings. -/
def lexLe : Str → Str → Bool
  | [], _ => true
  | _ :: _, [] => false
  | a :: x, b :: y => if a < b then true else if a = b then lexLe x y else false

/-- Whether consecutive entries of a list of names are in lexicographic
order. -/
def namesSorted : List Str → Bool
  | [] => true
  | [_] => true
  | a :: b :: t => lexLe a b && namesSorted (b :: t)

/-- Stable insertion by an integer key: the order `sorted` produces for a
list of objects compared by that key. -/
def insertByKey (key : α → Nat) (x : α) : List α → List α
  | [] => [x]
  | y :: ys => if key x < key y then x :: y :: ys else y :: insertByKey key x ys

/-- Python 2's `sorted` over same-class instances that define no ordering
methods compares them by their interpreter-assigned addresses; the key
models `id(obj)`. -/
def pysorted (key : α → Nat) : List α → List α
  | [] => []
  | x :: xs => insertByKey key x (pysorted key xs)

/-- The iteration order of `list_task` (rccli.py line 55, `for lang in
sorted(task.values())`): each language is carried here as its
interpreter address paired with its name, and the loop emits the names in
the order `sorted` yields under the default instance comparison. -/
def list_task_order (langs : List (Nat × Str)) : List Str :=
  (pysorted Prod.fst langs).map Prod.snd

/-! ## Concrete inputs used to settle the claims -/

/-- The spec's end-to-end example section body. -/
def c3md : Str :=
  "\x7b\x7bworks with|GCC|4.8\x7d\x7d\n<lang C>int main()\x7breturn 0;\x7d</lang>\n\x7b\x7bout\x7d\x7d\n<pre>0\n</pre>".data

/-- What the extraction actually yields on `c3md`: the fence attribute `C`
as the block's syntax hint, and an output annotation whose label is the
empty string (the bare `\x7b\x7bout\x7d\x7d` marker's parameter group is
empty, it splits to one empty token, and that token overwrites the default
label). -/
def c3actual : CodeBlock :=
  { syn := some "C".data
    code := "int main()\x7breturn 0;\x7d".data
    output := some
      { label := [], output := "0\n".data
        case_ := none, input := none, note := none, text := none }
    workswith := some
      { wikiname := "GCC".data, display := none, version := some "4.8".data } }

/-- The block the claim describes, reading `syntax=None`. -/
def c3claimedNone : CodeBlock :=
  { syn := none
    code := "int main()\x7breturn 0;\x7d".data
    output := some
      { label := "Output".data, output := "0\n".data
        case_ := none, input := none, note := none, text := none }
    workswith := some
      { wikiname := "GCC".data, display := none, version := some "4.8".data } }

/-- The block the claim describes, reading `syntax` as the empty string. -/
def c3claimedEmpty : CodeBlock := { c3claimedNone with syn := some [] }

/-- C3, counterexample: on the spec's own example input the extraction does
not produce the CodeBlock the claim describes, under either reading of
"syntax is None (or empty)" - the fence attribute is `C` and the output
label is the empty string, not `"Output"`. -/
theorem C3_counterexample :
    blocksOf c3md ≠ [c3claimedNone] ∧ blocksOf c3md ≠ [c3claimedEmpty] := by
  decide

/-- C3, amended: extracting blocks from the example section body yields
exactly one CodeBlock, whose syntax hint is `"C"` (taken from the fence),
whose code is the fence's inner text verbatim, whose works-with annotation
is `\x7bwikiname: "GCC", version: "4.8", display: None\x7d`, and whose
output annotation has the empty label (the bare out marker's single empty
parameter token overwrites the `"Output"` default), output `"0\n"`, and no
case, input, note or text fields. -/
theorem C3_theorem : blocksOf c3md = [c3actual] := by decide

/-- A task text with one paired level-2 heading,
`==\x7b\x7bheader|C\x7d\x7d and \x7b\x7bheader|C++\x7d\x7d==`. -/
def c2edit : Str :=
  "T\n==\x7b\x7bheader|C\x7d\x7d and \x7b\x7bheader|C++\x7d\x7d==\n<lang C>x</lang>".data

/-- C2: on a paired `X and Y` heading the language scan of `Task.languages`
produces TWO `Language` objects for the one section - `language_re` also
matches the paired heading (its lazy name group spans
`C\x7d\x7d and \x7b\x7bheader|C++`), and the pipe-alias canonicalization of
`Language.__init__` then turns that captured text into the name `C++` - so
a Language named after the second language Y is produced alongside the
intended one named X, against the claim (and the source's own comment
"we'll only pick the first").  The section body is attributed to both. -/
theorem C2_eval :
    languagesOf c2edit =
      [⟨"C++".data, "<lang C>x</lang>".data⟩, ⟨"C".data, "<lang C>x</lang>".data⟩] := by
  decide

/-- Two languages as `list_task` sees them: the interpreter address of each
`Language` object (first component, the sort key Python 2's default
instance comparison uses) paired with its name.  Here the object named
`Zebra` happens to live at the lower address. -/
def c9langs : List (Nat × Str) := [(0, "Zebra".data), (1, "Apple".data)]

/-- C9: `sorted(task.values())` sorts `Language` instances that define no
ordering methods, so Python 2 compares them by address; under the address
assignment of `c9langs` the listing emits `Zebra` before `Apple`, which is
not lexicographic by name.  The listing order therefore depends on object
addresses, not on names. -/
theorem C9_eval :
    list_task_order c9langs = ["Zebra".data, "Apple".data]
      ∧ namesSorted (list_task_order c9langs) = false := by
  decide

/-! ## A declarative reading of the out-marker parameter list -/

/-- The tokens that overwrite the label: everything except a `key=value`
token whose key is one of the four known fields. -/
def labelTok (tok : Str) : Option Str :=
  match splitEq1 tok with
  | (k, some _) =>
    if k = "case".data ∨ k = "input".data ∨ k = "note".data ∨ k = "text".data
    then none else some k
  | (k, none) => some k

/-- The value a `key=value` token contributes to the field named `key`. -/
def valTok (key : Str) (tok : Str) : Option Str :=
  match splitEq1 tok with
  | (k, some v) => if k = key then some v else none
  | (_, none) => none

/-- The last value in `vs` when there is one, the default otherwise: how a
sequence of assignments leaves a field. -/
def lastSet (vs : List Str) (d : Option Str) : Option Str :=
  match vs.getLast? with
  | some v => some v
  | none => d

/-- `lastSet` with a plain default: how a sequence of assignments leaves
the label. -/
def lastSetD (vs : List Str) (d : Str) : Str :=
  match vs.getLast? with
  | some v => v
  | none => d

theorem lastSetD_cons (v : Str) (vs : List Str) (d : Str) :
    lastSetD (v :: vs) d = lastSetD vs v := by
  cases vs with
  | nil => rfl
  | cons w ws => simp [lastSetD, List.getLast?]

theorem lastSet_cons (v : Str) (vs : List Str) (d : Option Str) :
    lastSet (v :: vs) d = lastSet vs (some v) := by
  cases vs with
  | nil => rfl
  | cons w ws => simp [lastSet, List.getLast?]

/-- One step of the parameter fold, read declaratively. -/
theorem outFold_spec (toks : List Str) : ∀ acc : OutAnn,
    toks.foldl outStep acc =
      { label := lastSetD (toks.filterMap labelTok) acc.label
        output := acc.output
        case_ := lastSet (toks.filterMap (valTok "case".data)) acc.case_
        input := lastSet (toks.filterMap (valTok "input".data)) acc.input
        note := lastSet (toks.filterMap (valTok "note".data)) acc.note
        text := lastSet (toks.filterMap (valTok "text".data)) acc.text } := by
  induction toks with
  | nil => intro acc; rfl
  | cons tok rest ih =>
    intro acc
    rw [List.foldl_cons, ih]
    rcases h : splitEq1 tok with ⟨k, v?⟩
    cases v? with
    | none =>
      simp only [outStep, labelTok, valTok, h, List.filterMap_cons]
      simp [lastSetD_cons]
    | some v =>
      by_cases hc : k = "case".data
      · subst hc
        simp only [outStep, labelTok, valTok, h, List.filterMap_cons]
        simp [lastSet_cons]
      · by_cases hi : k = "input".data
        · subst hi
          simp only [outStep, labelTok, valTok, h, List.filterMap_cons]
          simp [lastSet_cons, hc]
        · by_cases hn : k = "note".data
          · subst hn
            simp only [outStep, labelTok, valTok, h, List.filterMap_cons]
            simp [lastSet_cons, hc, hi]
          · by_cases ht : k = "text".data
            · subst ht
              simp only [outStep, labelTok, valTok, h, List.filterMap_cons]
              simp [lastSet_cons, hc, hi, hn]
            · simp only [outStep, labelTok, valTok, h, List.filterMap_cons]
              simp [lastSet_cons, hc, hi, hn, ht, lastSetD_cons]

/-- C4, counterexample: with the parameter list `A|B` the code's label is
`B`, the last unlabelled token, not the first as the claim states; and the
bare marker (empty parameter group) yields the empty label, not
`"Output"`, because the empty group splits into one empty unlabelled
token. -/
theorem C4_counterexample :
    (parseOut "A|B".data "x".data).label = "B".data
    ∧ (parseOut "A|B".data "x".data).label ≠ "A".data
    ∧ (parseOut [] "y".data).label = []
    ∧ (parseOut [] "y".data).label ≠ "Output".data := by
  decide

/-- C4, amended: the label starts as `"Output"` and is overwritten by each
unlabelled token in turn, so the LAST unlabelled token wins; a `key=value`
token with key `case`, `input`, `note` or `text` sets only that field
(last occurrence winning) and leaves the label alone, while a `key=value`
token with any other key overwrites the label with its key part; the
captured sample always becomes `output`.  In particular a bare marker
yields the empty label, since its empty parameter group splits into one
empty unlabelled token. -/
theorem C4_theorem (g1 g2 : Str) :
    parseOut g1 g2 =
      { label := lastSetD ((splitOnChar '|' g1).filterMap labelTok) "Output".data
        output := g2
        case_ := lastSet ((splitOnChar '|' g1).filterMap (valTok "case".data)) none
        input := lastSet ((splitOnChar '|' g1).filterMap (valTok "input".data)) none
        note := lastSet ((splitOnChar '|' g1).filterMap (valTok "note".data)) none
        text := lastSet ((splitOnChar '|' g1).filterMap (valTok "text".data)) none } :=
  outFold_spec (splitOnChar '|' g1) _

/-! ## The pending works-with value is never cleared -/

/-- Once the pending works-with value is set, the scan attaches it to EVERY
block it creates until a later works-with marker replaces it: the loop body
has no assignment clearing `works_with` after a block is built.  Blocks
already in the accumulator keep their code and works-with fields (only
their output can still change). -/
theorem blocksLoop_ww_persists (chunks : List Str) :
    ∀ (w : WorksWith) (rb : List CodeBlock),
      (∀ x ∈ chunks, searchWW x = none) →
      ∀ b ∈ blocksLoop chunks (some w) rb,
        b.workswith = some w ∨ ∃ b0 ∈ rb, b0.code = b.code ∧ b0.workswith = b.workswith := by
  induction chunks with
  | nil =>
    intro w rb _ b hb
    simp only [blocksLoop, List.mem_reverse] at hb
    exact Or.inr ⟨b, hb, rfl, rfl⟩
  | cons s rest ih =>
    intro w rb h b hb
    have hs : searchWW s = none := h s (List.mem_cons_self s rest)
    have hrest : ∀ x ∈ rest, searchWW x = none := fun x hx => h x (List.mem_cons_of_mem s hx)
    simp only [blocksLoop, hs] at hb
    cases hout : searchOut s with
    | some p =>
      rw [hout] at hb
      cases rb with
      | nil => exact (ih w [] hrest b hb).imp id id
      | cons b1 bs =>
        rcases ih w _ hrest b hb with hw | ⟨b0, hb0, hcode, hww⟩
        · exact Or.inl hw
        · rcases List.mem_cons.mp hb0 with rfl | hmem
          · exact Or.inr ⟨b1, List.mem_cons_self b1 bs, hcode, hww⟩
          · exact Or.inr ⟨b0, List.mem_cons_of_mem b1 hmem, hcode, hww⟩
    | none =>
      rw [hout] at hb
      cases hblk : searchBlock s with
      | some q =>
        rw [hblk] at hb
        rcases ih w _ hrest b hb with hw | ⟨b0, hb0, hcode, hww⟩
        · exact Or.inl hw
        · rcases List.mem_cons.mp hb0 with rfl | hmem
          · exact Or.inl (hww.symm.trans rfl)
          · exact Or.inr ⟨b0, hmem, hcode, hww⟩
      | none =>
        rw [hblk] at hb
        exact ih w rb hrest b hb

/-- C1, amended: in a section whose chunk scan opens with a works-with
marker and contains no later works-with marker, the pending value is
attached to the FIRST and to EVERY later fenced code region's block - the
loop never clears it, a later works-with marker being the only thing that
replaces it. -/
theorem C1_theorem (md : Str) (c : Str) (rest : List Str) (g : Str)
    (h1 : findall md = c :: rest)
    (h2 : searchWW c = some g)
    (h3 : ∀ x ∈ rest, searchWW x = none) :
    (blocksOf md).Forall fun b => b.workswith = some (parseWorksWith g) := by
  rw [List.forall_iff_forall_mem]
  intro b hb
  rw [blocksOf, h1] at hb
  simp only [blocksLoop, h2] at hb
  rcases blocksLoop_ww_persists rest (parseWorksWith g) [] h3 b hb with hw | ⟨_, h0, _⟩
  · exact hw
  · exact absurd h0 (List.not_mem_nil _)

/-- A section with one works-with marker followed by two fenced code
regions. -/
def c1md : Str :=
  "\x7b\x7bworks with|GCC\x7d\x7d\n<lang C>a</lang>\n<lang C>b</lang>".data

/-- The annotation that marker parses to. -/
def c1ww : WorksWith := { wikiname := "GCC".data, display := none, version := none }

/-- C1, counterexample: with two fenced regions after one works-with
marker, BOTH resulting blocks carry the annotation - the claim says the
second must have `workswith` absent, but the scan never clears the pending
value. -/
theorem C1_counterexample :
    (blocksOf c1md).map CodeBlock.workswith = [some c1ww, some c1ww]
      ∧ (blocksOf c1md).length = 2 := by
  decide

/-- C1, witness: the amended theorem applied to `c1md`. -/
theorem C1_witness :
    (blocksOf c1md).Forall fun b => b.workswith = some (parseWorksWith "GCC".data) :=
  C1_theorem c1md
    "\x7b\x7bworks with|GCC\x7d\x7d".data
    ["<lang C>a</lang>".data, "<lang C>b</lang>".data]
    "GCC".data (by decide) (by decide) (by decide)

/-! ## A dangling output annotation is silently dropped -/

/-- Removing an output chunk that no block precedes changes nothing: while
the accumulator is still empty, the out branch of the loop does not alter
the state, so the scan of the remaining chunks proceeds identically. -/
theorem blocksLoop_dangling_out (pre : List Str) :
    ∀ (c : Str) (rest : List Str) (ww : Option WorksWith),
      (∀ x ∈ pre, searchBlock x = none) →
      searchWW c = none → (searchOut c).isSome →
      blocksLoop (pre ++ c :: rest) ww [] = blocksLoop (pre ++ rest) ww [] := by
  induction pre with
  | nil =>
    intro c rest ww _ h3 h4
    rcases hout : searchOut c with _ | p
    · rw [hout] at h4; cases h4
    · simp only [List.nil_append, blocksLoop, h3, hout]
  | cons x pre' ih =>
    intro c rest ww h h3 h4
    have hx : searchBlock x = none := h x (List.mem_cons_self x pre')
    have hpre : ∀ y ∈ pre', searchBlock y = none := fun y hy => h y (List.mem_cons_of_mem x hy)
    simp only [List.cons_append, blocksLoop]
    cases hw : searchWW x with
    | some g => exact ih c rest (some (parseWorksWith g)) hpre h3 h4
    | none =>
      cases ho : searchOut x with
      | some p => exact ih c rest ww hpre h3 h4
      | none => rw [hx]; exact ih c rest ww hpre h3 h4

/-- C5: an output-with-sample marker whose chunk comes before any fenced
code region of the section is silently discarded - the extraction result
is exactly what it would be with that chunk absent, so no block carries the
annotation, nothing retains it, and no error is possible (the scan is a
total function). -/
theorem C5_theorem (md : Str) (pre : List Str) (c : Str) (rest : List Str)
    (h1 : findall md = pre ++ c :: rest)
    (h2 : ∀ x ∈ pre, searchBlock x = none)
    (h3 : searchWW c = none)
    (h4 : (searchOut c).isSome) :
    blocksOf md = blocksLoop (pre ++ rest) none [] := by
  rw [blocksOf, h1, blocksLoop_dangling_out pre c rest none h2 h3 h4]

/-- A section whose out marker precedes its only fenced code region. -/
def c5md : Str :=
  "\x7b\x7bout\x7d\x7d\n<pre>0\n</pre>\n<lang C>x</lang>".data

/-- C5, witness: on `c5md` the result equals the scan of the section with
the dangling output chunk removed. -/
theorem C5_witness :
    blocksOf c5md = blocksLoop ["<lang C>x</lang>".data] none [] :=
  C5_theorem c5md []
    "\x7b\x7bout\x7d\x7d\n<pre>0\n</pre>".data
    ["<lang C>x</lang>".data]
    (by decide) (by decide) (by decide) (by decide)

/-! ## Determinism and cache behaviour -/

/-- C6: extraction is a pure function of the input text.  On a fresh
`Language` object the first `blocks` access computes exactly `blocksOf` of
the markup - a function, so identical input gives identical output,
including block order - and a second access returns the identical list
without touching the object again; likewise a second `languages` access on
any `Task` object returns the first result unchanged, leaves the object
as it was, and performs no fetch. -/
theorem C6_theorem (l : LangState) (env : Env) (t : TaskState)
    (h : l.blocksCache = none) :
    ((blocksGet l).1 = blocksOf l.md
      ∧ (blocksGet (blocksGet l).2).1 = (blocksGet l).1
      ∧ (blocksGet (blocksGet l).2).2 = (blocksGet l).2)
    ∧ ((languagesGet env (languagesGet env t).2.1).1 = (languagesGet env t).1
      ∧ (languagesGet env (languagesGet env t).2.1).2.1 = (languagesGet env t).2.1
      ∧ (languagesGet env (languagesGet env t).2.1).2.2 = false) := by
  constructor
  · simp [blocksGet, h]
  · cases ht : t.langs with
    | some ls => simp [languagesGet, ht]
    | none => simp [languagesGet, ht]

/-- C6, witness: the theorem at a concrete fresh language object and task
object. -/
theorem C6_witness :
    (((blocksGet ⟨"C".data, "<lang C>z</lang>".data, none, none⟩).1 =
        blocksOf "<lang C>z</lang>".data
      ∧ (blocksGet (blocksGet ⟨"C".data, "<lang C>z</lang>".data, none, none⟩).2).1 =
        (blocksGet ⟨"C".data, "<lang C>z</lang>".data, none, none⟩).1
      ∧ (blocksGet (blocksGet ⟨"C".data, "<lang C>z</lang>".data, none, none⟩).2).2 =
        (blocksGet ⟨"C".data, "<lang C>z</lang>".data, none, none⟩).2)
    ∧ ((languagesGet ⟨fun _ => [], fun _ => []⟩
          (languagesGet ⟨fun _ => [], fun _ => []⟩ (newTask "w".data)).2.1).1 =
        (languagesGet ⟨fun _ => [], fun _ => []⟩ (newTask "w".data)).1
      ∧ (languagesGet ⟨fun _ => [], fun _ => []⟩
          (languagesGet ⟨fun _ => [], fun _ => []⟩ (newTask "w".data)).2.1).2.1 =
        (languagesGet ⟨fun _ => [], fun _ => []⟩ (newTask "w".data)).2.1
      ∧ (languagesGet ⟨fun _ => [], fun _ => []⟩
          (languagesGet ⟨fun _ => [], fun _ => []⟩ (newTask "w".data)).2.1).2.2 = false)) :=
  C6_theorem ⟨"C".data, "<lang C>z</lang>".data, none, none⟩
    ⟨fun _ => [], fun _ => []⟩ (newTask "w".data) rfl

/-- C8: assigning a new language filter clears the `_languages` cache and
leaves the fetched page and extracted edit text alone; the next `languages`
or `dict` access then recomputes both the language list (under the new
filter) and the name mapping from the cached edit text, without any fetch.
Assigning a new task filter on a Category clears the `_tasks` cache and
leaves the page and links alone; the next `tasks` access rebuilds the task
list from the cached links under the new filter, without any fetch. -/
theorem C8_theorem (env : Env) (cenv : CatEnv) (t : TaskState) (f : Language → Bool)
    (e : Str) (he : t.edit = some e) (hne : e ≠ [])
    (c : CategoryState) (g : TaskState → Bool) (l : List (Str × Str))
    (hl : c.links = some l) :
    (setLanguageFilter t f).langs = none
    ∧ (setLanguageFilter t f).page = t.page
    ∧ (setLanguageFilter t f).edit = t.edit
    ∧ (languagesGet env (setLanguageFilter t f)).1 = computeLanguages e f
    ∧ (languagesGet env (setLanguageFilter t f)).2.1.langs =
        some (computeLanguages e f)
    ∧ (languagesGet env (setLanguageFilter t f)).2.1.byname =
        some (bynameOf (computeLanguages e f))
    ∧ (languagesGet env (setLanguageFilter t f)).2.1.page = t.page
    ∧ (languagesGet env (setLanguageFilter t f)).2.1.edit = t.edit
    ∧ (languagesGet env (setLanguageFilter t f)).2.2 = false
    ∧ (dictGet env (setLanguageFilter t f)).1 = bynameOf (computeLanguages e f)
    ∧ (dictGet env (setLanguageFilter t f)).2.2 = false
    ∧ (setTaskFilter c g).tasks = none
    ∧ (setTaskFilter c g).page = c.page
    ∧ (setTaskFilter c g).links = c.links
    ∧ (tasksGet cenv (setTaskFilter c g)).1 = (l.map fun p => newTask p.2).filter g
    ∧ (tasksGet cenv (setTaskFilter c g)).2.1.page = c.page
    ∧ (tasksGet cenv (setTaskFilter c g)).2.1.links = c.links
    ∧ (tasksGet cenv (setTaskFilter c g)).2.2 = false := by
  have hfalsy : optFalsy (some e) = false := by
    simp [optFalsy, hne]
  refine ⟨rfl, rfl, rfl, ?_⟩
  simp [setLanguageFilter, languagesGet, editGet, dictGet, he, hfalsy,
    setTaskFilter, tasksGet, linksGet, hl]

/-- C8, witness: the theorem at a concrete task (edit text cached), a
concrete category (links cached), and concrete filters. -/
theorem C8_witness :
    (setLanguageFilter
        { wikiname := "w".data, page := some "p".data, edit := some "x".data
          langs := some [], byname := some [], filter := fun _ => true }
        (fun _ => false)).langs = none
    ∧ (languagesGet ⟨fun _ => [], fun _ => []⟩
        (setLanguageFilter
          { wikiname := "w".data, page := some "p".data, edit := some "x".data
            langs := some [], byname := some [], filter := fun _ => true }
          (fun _ => false))).2.2 = false := by
  rcases C8_theorem ⟨fun _ => [], fun _ => []⟩
      ⟨⟨fun _ => [], fun _ => []⟩, fun _ => none⟩
      { wikiname := "w".data, page := some "p".data, edit := some "x".data
        langs := some [], byname := some [], filter := fun _ => true }
      (fun _ => false) "x".data rfl (by decide)
      { category := "c".data, page := none, links := some []
        tasks := none, filter := fun _ => true }
      (fun _ => true) [] rfl with
    ⟨h1, _, _, _, _, _, _, _, h9, _⟩
  exact ⟨h1, h9⟩

/-- C10: both `Task.__getitem__` and `Task.get` raise the `KeyError`
"Key for Task languages must be a string" on every non-string index - in
particular `get` raises rather than returning its default - and the failed
lookup returns the object in exactly the state it was in (the type check
precedes every attribute access). -/
theorem C10_theorem (env : Env) (t : TaskState) (tag : Nat)
    (default : Option Language) :
    task_getitem env t (.other tag) = (.error keyErrMsg, t)
    ∧ task_get env t (.other tag) default = (.error keyErrMsg, t) :=
  ⟨rfl, rfl⟩

/-! ## The directory export -/

/-- Every exported file body ends in the newline written after the code. -/
theorem bodyFor_getLast (o : WriteOpts) (tv : TaskView) (ln code : Str) :
    (bodyFor o tv ln code).getLast? = some '\n' := by
  unfold bodyFor
  exact List.getLast?_concat _

/-- Inverting the per-language block loop: a written pair comes from the
block at some offset, with the filename derived from the running index. -/
theorem mem_filesOfBlocks (opts : WriteOpts) (tv : TaskView) (lname : Str)
    (nblocks : Nat) :
    ∀ (bs : List CodeBlock) (i : Nat) (fn body : Str),
      (fn, body) ∈ filesOfBlocks opts tv lname nblocks i bs →
      ∃ j, ∃ hj : j < bs.length,
        fn = filenameFor opts (extensionOf lname) (variantName tv.fsname nblocks (i + j))
          ∧ body = bodyFor opts tv lname (bs.get ⟨j, hj⟩).code := by
  intro bs
  induction bs with
  | nil => intro i fn body h; exact absurd h (List.not_mem_nil _)
  | cons b rest ih =>
    intro i fn body h
    rcases List.mem_cons.mp h with heq | hmem
    · refine ⟨0, Nat.succ_pos _, ?_, ?_⟩
      · rw [Nat.add_zero]; exact congrArg Prod.fst heq
      · exact congrArg Prod.snd heq
    · rcases ih (i + 1) fn body hmem with ⟨j, hj, h1, h2⟩
      refine ⟨j + 1, Nat.succ_lt_succ hj, ?_, h2⟩
      rw [show i + (j + 1) = i + 1 + j by omega]
      exact h1

/-- C7, amended: every file the directory export writes is, for some task,
language and 0-based block offset `j`, named `<fsname>` when the language
has exactly one block and `<fsname>__<j+1>` otherwise (placed per the
layout, with the extension the lowercased language name, path separators
turned into dots), and its body is the optional intro/task comments, the
block's code verbatim, then ONE appended newline - so it always ends in a
newline, but in more than one when the code itself ends in a newline. -/
theorem C7_theorem (opts : WriteOpts) (tasks : List TaskView) (fn body : Str)
    (h : (fn, body) ∈ write_tasks_dir opts tasks) :
    ∃ tv ∈ tasks, ∃ lg ∈ tv.languages, ∃ j, ∃ hj : j < lg.2.length,
      fn = filenameFor opts (extensionOf lg.1) (variantName tv.fsname lg.2.length j)
      ∧ body = bodyFor opts tv lg.1 (lg.2.get ⟨j, hj⟩).code
      ∧ body.getLast? = some '\n' := by
  rw [write_tasks_dir, List.mem_flatMap] at h
  rcases h with ⟨tv, htv, h⟩
  rw [List.mem_flatMap] at h
  rcases h with ⟨lg, hlg, h⟩
  rcases mem_filesOfBlocks opts tv lg.1 lg.2.length lg.2 0 fn body h with ⟨j, hj, h1, h2⟩
  rw [Nat.zero_add] at h1
  exact ⟨tv, htv, lg, hlg, j, hj, h1, h2, h2 ▸ bodyFor_getLast _ _ _ _⟩

/-- The export options of the claim's example: unix layout, no comment
prefixes. -/
def c7opts : WriteOpts :=
  { code_dir := "code".data, layout := "unix".data
    include_task := false, include_intro := false }

/-- A task with fsname `Foo` and one language `C` holding two blocks, the
second block's code ending in a newline of its own. -/
def c7tv : TaskView :=
  { fsname := "Foo".data, intro := [], task := []
    languages := [("C".data,
      [{ syn := none, code := "a".data, output := none, workswith := none },
       { syn := none, code := "x\n".data, output := none, workswith := none }])] }

/-- C7, counterexample: the two files are indeed `code/Foo__1.c` and
`code/Foo__2.c`, but the second one's contents are the code `"x\n"` plus
the appended newline, i.e. `"x\n\n"`, which ends in TWO newlines - the
claimed "exactly one trailing newline" fails whenever a block's code ends
in a newline. -/
theorem C7_counterexample :
    write_tasks_dir c7opts [c7tv] =
      [("code/Foo__1.c".data, "a\n".data), ("code/Foo__2.c".data, "x\n\n".data)]
    ∧ "x\n\n".data.getLast? = some '\n'
    ∧ "x\n\n".data.dropLast.getLast? = some '\n' := by
  decide

/-- C7, witness: the amended theorem applied to the first file of the
example export. -/
theorem C7_witness :
    ∃ tv ∈ [c7tv], ∃ lg ∈ tv.languages, ∃ j, ∃ hj : j < lg.2.length,
      "code/Foo__1.c".data =
        filenameFor c7opts (extensionOf lg.1) (variantName tv.fsname lg.2.length j)
      ∧ "a\n".data = bodyFor c7opts tv lg.1 (lg.2.get ⟨j, hj⟩).code
      ∧ "a\n".data.getLast? = some '\n' :=
  C7_theorem c7opts [c7tv] "code/Foo__1.c".data "a\n".data (by decide)

end Rosetta
